import Mathlib

/-!
Verification of the `DataManager` class of PySQL (`src/PySQL/DataManager.py`).

The development shallowly embeds the two parts of the file:

* the statistics engine (`get_categorical_var_analysis`,
  `get_numerical_var_analysis`, `get_numerical_column_stats`,
  `_initialize_results_dict`) over an explicit table of cells, and
* the store gateway query/error plumbing (`_create_table`,
  `create_and_fill_table`, `get_table`, `get_column_names`, `_connect`,
  `_reformat_columns`, `_reformat_columns_and_types`) with the PostgreSQL
  backend treated as an oracle.

Modelling conventions:

* A pandas cell is a string, a (finite) number, or the missing marker NaN.
  Floating point numbers are idealised as rationals; the sample standard
  deviation (the one irrational quantity, displayed with two decimals) is
  rendered by an exact integer square-root rounding on the variance.
  Python's float formatting `"%.2f"` is idealised as round-half-even of the
  exact rational value.
* `DataFrame(results)` raises `ValueError` when the dict's lists have
  unequal lengths; the categorical engine can raise `ZeroDivisionError`
  (integer division by a zero total).  The categorical analysis therefore
  lives in `Except String`, the numerical one returns its dict and the
  final `DataFrame` conversion is an `Option`.
* Python dicts are insertion-ordered association lists; `d[k] = v` keeps
  the position of an existing key, `d[k].append(v)` mutates in place.
-/

namespace PySQL

/-- A pandas cell: a string, a number, or the missing marker (NaN/None). -/
inductive Cell
  | str (s : String)
  | num (q : ℚ)
  | null
deriving DecidableEq, Repr

/-- `pd.isna` on a single cell. -/
def Cell.isNull : Cell → Bool
  | .null => true
  | _ => false

/-- Pandas elementwise `==`: the missing marker compares unequal to
everything (including itself), and values of different kinds are unequal. -/
def Cell.beq : Cell → Cell → Bool
  | .str a, .str b => a == b
  | .num a, .num b => a == b
  | _, _ => false

/-- Python `str()` of a cell, as used inside f-strings building row labels
and group keys.  `str(nan)` is `"nan"`.  (Numeric cells never reach a label
position in the analysed claims; their rendering is fixed arbitrarily.) -/
def Cell.render : Cell → String
  | .str s => s
  | .num q => toString q
  | .null => "nan"

/-- `astype("float")` on a single cell: missing stays missing.  (On a
non-numeric string the source would raise; the claims about the numerical
engine restrict attention to numeric columns.) -/
def Cell.toFloat : Cell → Option ℚ
  | .num q => some q
  | _ => none

/-- Whether `astype("float")` succeeds on the cell (numbers and the
missing marker; a non-numeric string raises in the source). -/
def Cell.numericOrMissing : Cell → Bool
  | .str _ => false
  | _ => true

/-- A pandas `DataFrame`: named columns, rows aligned by position. -/
structure Table where
  headers : List String
  rows : List (List Cell)
deriving DecidableEq, Repr

/-- The cell of row `r` in the column named `c` (rows are positional). -/
def rowCell (headers : List String) (r : List Cell) (c : String) : Cell :=
  r.getD (headers.findIdx (fun h => h == c)) Cell.null

/-- `df[c]`: the column named `c` as a list of cells. -/
def Table.col (t : Table) (c : String) : List Cell :=
  t.rows.map (fun r => rowCell t.headers r c)

/-- `df.shape[0]`. -/
def Table.nrows (t : Table) : ℕ := t.rows.length

/-- `df[mask]`: keep the rows satisfying the predicate. -/
def Table.filterRows (t : Table) (p : List Cell → Bool) : Table :=
  ⟨t.headers, t.rows.filter p⟩

/-- `Series.unique()`: distinct values in first-seen order (pandas keeps a
single NaN if present). -/
def uniqueCells (l : List Cell) : List Cell :=
  l.foldl (fun acc x => if x ∈ acc then acc else acc ++ [x]) []

/-- `df[col].dropna().unique()`: the categories of a column. -/
def cat_categories (t : Table) (col : String) : List Cell :=
  uniqueCells ((t.col col).filter (fun c => !c.isNull))

/-! ### The results dictionary -/

/-- The accumulator built by both analyses: an insertion-ordered dict from
row label to list of formatted strings. -/
abbrev RDict := List (String × List String)

/-- Python `d[k] = v`: overwrite in place if the key exists, else append. -/
def dictSet (d : RDict) (k : String) (v : List String) : RDict :=
  if d.any (fun p => p.1 == k) then
    d.map (fun p => if p.1 == k then (p.1, v) else p)
  else d ++ [(k, v)]

/-- Python `d[k].append(v)` (every entry holding key `k` is extended; in
the flows below keys are unique, matching dict semantics). -/
def dictAppend (d : RDict) (k : String) (v : String) : RDict :=
  d.map (fun p => if p.1 == k then (p.1, p.2 ++ [v]) else p)

/-- Sequential `append`s, one per key/value pair. -/
def dictAppendMany (d : RDict) (kvs : List (String × String)) : RDict :=
  kvs.foldl (fun d kv => dictAppend d kv.1 kv.2) d

/-- The keys of the dict, in order. -/
def dictKeys (d : RDict) : List String := d.map Prod.fst

/-- `DataFrame(results)` succeeds iff all value lists have equal length. -/
def dictAligned : RDict → Bool
  | [] => true
  | p :: ps => ps.all (fun q => q.2.length == p.2.length)

/-- `DataFrame(results)`: `ValueError` (here `none`) when misaligned. -/
def to_dataframe (d : RDict) : Option RDict :=
  if dictAligned d then some d else none

instance instDecidableEqExcept {ε α : Type} [DecidableEq ε] [DecidableEq α] :
    DecidableEq (Except ε α) := fun a b =>
  match a, b with
  | .error e1, .error e2 =>
      if h : e1 = e2 then .isTrue (by rw [h])
      else .isFalse (fun hh => h (Except.error.inj hh))
  | .ok a1, .ok a2 =>
      if h : a1 = a2 then .isTrue (by rw [h])
      else .isFalse (fun hh => h (Except.ok.inj hh))
  | .error _, .ok _ => .isFalse (fun hh => Except.noConfusion hh)
  | .ok _, .error _ => .isFalse (fun hh => Except.noConfusion hh)

/-- `DataManager.VAR_NAME`. -/
def VAR_NAME : String := "Variable Name"

/-- `DataManager.ALL`. -/
def ALL : String := "All"

/-- The synthetic key `f"{group} {group_val}"`. -/
def group_key (group : String) (gv : Cell) : String :=
  group ++ " " ++ gv.render

/-- `DataManager._initialize_results_dict`: the fresh accumulator plus the
list of group values (`df[group].unique()`, which does **not** drop NaN).
With no group the source returns `None` for the group values; we model
that as the empty list. -/
def initialize_results_dict (t : Table) (group : Option String) :
    RDict × List Cell :=
  match group with
  | none => ([(VAR_NAME, []), (ALL, [])], [])
  | some g =>
      let gvals := uniqueCells (t.col g)
      (gvals.foldl (fun d gv => dictSet d (group_key g gv) [])
        [(VAR_NAME, []), (ALL, [])], gvals)

/-- The columns analysed: all of them, or all but the grouping column. -/
def analysis_cols (t : Table) (group : Option String) : List String :=
  match group with
  | none => t.headers
  | some g => t.headers.filter (fun c => c != g)

/-- The key list of the freshly initialised accumulator (before any
identically-rendered keys are merged). -/
def analysisKeys (t : Table) (group : Option String) : List String :=
  match group with
  | none => [VAR_NAME, ALL]
  | some g => VAR_NAME :: ALL :: (uniqueCells (t.col g)).map (group_key g)

/-! ### Number formatting -/

/-- Round to the nearest integer, ties to the even integer (the rounding
used by Python's float formatting, applied here to the exact value). -/
def roundHalfEven (q : ℚ) : ℤ :=
  let f := ⌊q⌋
  if q - f < 1 / 2 then f
  else if 1 / 2 < q - f then f + 1
  else if 2 ∣ f then f else f + 1

/-- Two decimal digits. -/
def pad2 (n : ℕ) : String := if n < 10 then "0" ++ toString n else toString n

/-- Render an integer number of hundredths as a fixed two-decimal string. -/
def twoDecOfInt (n : ℤ) : String :=
  (if n < 0 then "-" else "") ++ toString (n.natAbs / 100) ++ "." ++
    pad2 (n.natAbs % 100)

/-- Python `f"{q:.2f}"` on the exact value. -/
def fmt2 (q : ℚ) : String := twoDecOfInt (roundHalfEven (100 * q))

/-- Python `f"{q:.2%}"` on the exact value: the ratio as a percentage with
two decimals and a percent sign. -/
def fmtPct (q : ℚ) : String := twoDecOfInt (roundHalfEven (10000 * q)) ++ "%"

/-- One Babylonian iteration step for the integer square root, with
explicit fuel (structural recursion, so proofs can evaluate it): the guess
decreases strictly towards `⌊√n⌋` and the iteration stops there. -/
def sqAux : ℕ → ℕ → ℕ → ℕ
  | 0, _, g => g
  | fuel + 1, n, g =>
      let g2 := (g + n / g) / 2
      if g2 < g then sqAux fuel n g2 else g

/-- `⌊√n⌋`: Newton's method from the upper bound `n / 2 + 1`, with fuel
`n` (the guess decreases by at least one per consumed unit of fuel). -/
def isqrt (n : ℕ) : ℕ := if n ≤ 1 then n else sqAux n n (n / 2 + 1)

/-- Round-half-even of `100 * √v` for `v ≥ 0`, computed exactly:
`n0 = ⌊100√v⌋` and the tie test `100√v ≷ n0 + 1/2` squared out over ℤ. -/
def sqrtHundredths (v : ℚ) : ℤ :=
  let a := v.num.toNat
  let b := v.den
  let n0 := isqrt (10000 * a * b) / b
  if 40000 * a < (2 * n0 + 1) ^ 2 * b then (n0 : ℤ)
  else if (2 * n0 + 1) ^ 2 * b < 40000 * a then (n0 : ℤ) + 1
  else if n0 % 2 = 0 then (n0 : ℤ) else (n0 : ℤ) + 1

/-! ### Numerical statistics -/

/-- `Series.min()` (NaN, i.e. `none`, on an empty series). -/
def minOpt (l : List ℚ) : Option ℚ :=
  l.foldr (fun x acc =>
    match acc with
    | none => some x
    | some y => some (min x y)) none

/-- `Series.max()` (NaN on an empty series). -/
def maxOpt (l : List ℚ) : Option ℚ :=
  l.foldr (fun x acc =>
    match acc with
    | none => some x
    | some y => some (max x y)) none

/-- `DataManager.get_numerical_column_stats` on the cells of a column:
mean, sample **variance** (the displayed standard deviation is its square
root, taken at formatting time), min and max over the non-missing values.
`none` is pandas' NaN result: mean/min/max of an empty series, std with
fewer than two observations (`ddof=1`). -/
def get_numerical_column_stats (cells : List Cell) :
    Option ℚ × Option ℚ × Option ℚ × Option ℚ :=
  let xs := cells.filterMap Cell.toFloat
  let n := xs.length
  let mean := if n = 0 then none else some (xs.sum / n)
  let var :=
    if n ≤ 1 then none
    else some (((xs.map (fun x => x ^ 2)).sum - xs.sum ^ 2 / n) / (n - 1))
  (mean, var, minOpt xs, maxOpt xs)

/-- `f"{x:.2f}"` where `x` may be NaN. -/
def fmtStat : Option ℚ → String
  | none => "nan"
  | some q => fmt2 q

/-- `f"{std:.2f}"` rendered from the variance (`none` is NaN). -/
def fmtStd : Option ℚ → String
  | none => "nan"
  | some v => twoDecOfInt (sqrtHundredths v)

/-- `f"{mean:.2f} ({std:.2f}) [{min:.2f}, {max:.2f}]"`. -/
def num_entry (cells : List Cell) : String :=
  let s := get_numerical_column_stats cells
  fmtStat s.1 ++ " (" ++ fmtStd s.2.1 ++ ") [" ++ fmtStat s.2.2.1 ++ ", " ++
    fmtStat s.2.2.2 ++ "]"

/-- The "All" entry of the numerical analysis for one column. -/
def num_all_entry (t : Table) (col : String) : String :=
  num_entry (t.col col)

/-- The `f"{group} {group_val}"` entry of the numerical analysis for one
column: the same statistics over `df[df[group] == group_val]`. -/
def num_group_entry (t : Table) (g : String) (gv : Cell) (col : String) :
    String :=
  num_entry ((t.filterRows (fun r => Cell.beq (rowCell t.headers r g) gv)).col col)

/-- The body of the group loop of `get_numerical_var_analysis`. -/
def numStepGroup (t : Table) (g : String) (col : String) (d : RDict)
    (gv : Cell) : RDict :=
  dictAppend d (group_key g gv) (num_group_entry t g gv col)

/-- The body of the column loop of `get_numerical_var_analysis`. -/
def numStepCol (t : Table) (group : Option String) (gvals : List Cell)
    (d : RDict) (col : String) : RDict :=
  let d := dictAppend d VAR_NAME col
  let d := dictAppend d ALL (num_all_entry t col)
  match group with
  | none => d
  | some g => gvals.foldl (numStepGroup t g col) d

/-- `DataManager.get_numerical_var_analysis`, up to (but excluding) the
final `DataFrame(results)` conversion. -/
def num_results (t : Table) (group : Option String) : RDict :=
  let init := initialize_results_dict t group
  (analysis_cols t group).foldl (numStepCol t group init.2) init.1

/-- `DataManager.get_numerical_var_analysis` (the returned `DataFrame`,
`none` when the dict's lists are misaligned and `DataFrame` raises). -/
def get_numerical_var_analysis (t : Table) (group : Option String) :
    Option RDict :=
  to_dataframe (num_results t group)

/-! ### Categorical statistics -/

/-- `total = df.shape[0] - df[col].isna().sum()`. -/
def col_total (t : Table) (col : String) : ℕ :=
  t.nrows - ((t.col col).filter Cell.isNull).length

/-- `category_total = df[df[col] == category].shape[0]`. -/
def category_total (t : Table) (col : String) (category : Cell) : ℕ :=
  (t.rows.filter (fun r => Cell.beq (rowCell t.headers r col) category)).length

/-- `df.loc[df[group] == group_val, col].dropna().shape[0]`. -/
def group_total (t : Table) (g : String) (gv : Cell) (col : String) : ℕ :=
  (((t.rows.filter (fun r => Cell.beq (rowCell t.headers r g) gv)).map
      (fun r => rowCell t.headers r col)).filter (fun c => !c.isNull)).length

/-- `sub_category_total = df[(df[group] == group_val) & (df[col] == category)].shape[0]`. -/
def sub_category_total (t : Table) (g : String) (gv : Cell) (col : String)
    (category : Cell) : ℕ :=
  (t.rows.filter (fun r =>
    Cell.beq (rowCell t.headers r g) gv &&
      Cell.beq (rowCell t.headers r col) category)).length

/-- `f"{a} ({a/b:.2%})"` for nonzero `b`; `b = 0` is Python's
`ZeroDivisionError` (integer division by zero inside the f-string). -/
def pctEntry (a b : ℕ) : Except String String :=
  if b = 0 then .error "ZeroDivisionError"
  else .ok (toString a ++ " (" ++ fmtPct ((a : ℚ) / (b : ℚ)) ++ ")")

/-- The "Variable Name" label `f"{col} : {category}"`. -/
def cat_label (col : String) (category : Cell) : String :=
  col ++ " : " ++ category.render

/-- The body of the group loop of `get_categorical_var_analysis`. -/
def catStepGroup (t : Table) (g : String) (col : String) (category : Cell)
    (d : RDict) (gv : Cell) : Except String RDict := do
  let e ← pctEntry (sub_category_total t g gv col category)
    (group_total t g gv col)
  .ok (dictAppend d (group_key g gv) e)

/-- The body of the category loop of `get_categorical_var_analysis`: append
the label, then the "All" entry, then (when grouping) one entry per group
value. -/
def catStepCategory (t : Table) (group : Option String) (gvals : List Cell)
    (col : String) (d : RDict) (category : Cell) : Except String RDict := do
  let d := dictAppend d VAR_NAME (cat_label col category)
  let e ← pctEntry (category_total t col category) (col_total t col)
  let d := dictAppend d ALL e
  match group with
  | none => .ok d
  | some g => gvals.foldlM (catStepGroup t g col category) d

/-- The body of the column loop of `get_categorical_var_analysis`. -/
def catStepCol (t : Table) (group : Option String) (gvals : List Cell)
    (d : RDict) (col : String) : Except String RDict :=
  (cat_categories t col).foldlM (catStepCategory t group gvals col) d

/-- `DataManager.get_categorical_var_analysis`, up to (but excluding) the
final `DataFrame(results)` conversion. -/
def cat_results (t : Table) (group : Option String) :
    Except String RDict :=
  let init := initialize_results_dict t group
  (analysis_cols t group).foldlM (catStepCol t group init.2) init.1

/-- `DataManager.get_categorical_var_analysis` (the returned `DataFrame`;
`ValueError` when the dict's lists are misaligned and `DataFrame` raises). -/
def get_categorical_var_analysis (t : Table) (group : Option String) :
    Except String RDict := do
  let d ← cat_results t group
  if dictAligned d then .ok d else .error "ValueError"

/-- The "All" entry `f"{category_total} ({category_total/total:.2%})"` of the
categorical analysis for one column and category. -/
def cat_all_entry (t : Table) (col : String) (category : Cell) : String :=
  toString (category_total t col category) ++ " (" ++
    fmtPct ((category_total t col category : ℚ) / (col_total t col : ℚ)) ++ ")"

/-- The `f"{group} {group_val}"` entry
`f"{sub_category_total} ({sub_category_total/group_total:.2%})"` of the
categorical analysis. -/
def cat_group_entry (t : Table) (g : String) (gv : Cell) (col : String)
    (category : Cell) : String :=
  toString (sub_category_total t g gv col category) ++ " (" ++
    fmtPct ((sub_category_total t g gv col category : ℚ) /
      (group_total t g gv col : ℚ)) ++ ")"

/-- The key/value pairs appended by one iteration of the column loop of
`get_numerical_var_analysis`. -/
def numColKVs (t : Table) (group : Option String) (gvals : List Cell)
    (col : String) : List (String × String) :=
  (VAR_NAME, col) :: (ALL, num_all_entry t col) ::
    (match group with
     | none => []
     | some g => gvals.map (fun gv => (group_key g gv, num_group_entry t g gv col)))

/-- The keys appended by one iteration of the category loop of
`get_categorical_var_analysis` (one label, one "All" entry, and one entry
per group value when grouping). -/
def catKeys (group : Option String) (gvals : List Cell) : List String :=
  VAR_NAME :: ALL ::
    (match group with
     | none => []
     | some g => gvals.map (group_key g))

/-! ### The store gateway

The PostgreSQL backend is opaque: each operation receives the backend's
response (to the statement it executes) as an oracle.  A backend failure
carries `e.pgerror`; the source catches `psycopg2.Error` and re-raises a
plain `Exception(e.pgerror)` in every operation. -/

/-- Outcome of a backend call: success, or a `psycopg2.Error` whose
`pgerror` text is recorded. -/
inductive PgResult (α : Type)
  | ok (a : α)
  | err (pgerror : String)

/-- The exceptions the `DataManager` source can raise towards its caller:
only the built-in `Exception`, carrying the backend's `pgerror` text
(`raise Exception(e.pgerror)` is the sole raise statement used). -/
inductive PyExc
  | exception (msg : String)
deriving DecidableEq, Repr

/-- `try: ... except psycopg2.Error as e: raise Exception(e.pgerror)`. -/
def wrap_pg {α : Type} : PgResult α → Except PyExc α
  | .ok a => .ok a
  | .err m => .error (.exception m)

/-- Python `",".join(l)`. -/
def joinComma (l : List String) : String :=
  match l with
  | [] => ""
  | s :: rest => rest.foldl (fun acc x => acc ++ "," ++ x) s

/-- `DataManager._reformat_columns`: each name wrapped in one pair of double
quotes (no escaping of the name's own characters), joined by commas. -/
def reformat_columns (cols : List String) : String :=
  joinComma (cols.map (fun c => "\"" ++ c ++ "\""))

/-- `DataManager._reformat_columns_and_types`: `"name" type` pairs in the
type map's iteration order, joined by commas. -/
def reformat_columns_and_types (types : List (String × String)) : String :=
  joinComma (types.map (fun p => "\"" ++ p.1 ++ "\" " ++ p.2))

/-- The single CREATE TABLE statement built by `DataManager._create_table`
(the type map is an insertion-ordered association list, like a Python dict). -/
def create_table_query (schema table_name : String)
    (types : List (String × String)) (primary_key : Option (List String)) :
    String :=
  let q := "CREATE TABLE " ++ schema ++ ".\"" ++ table_name ++ "\" (" ++
    reformat_columns_and_types types
  match primary_key with
  | some ks => q ++ ", PRIMARY KEY (" ++ reformat_columns ks ++ ") );"
  | none => q ++ ");"

/-- `DataManager._create_table`: the list of statements it executes (always
exactly the one query) and the wrapped outcome of that execution. -/
def create_table (schema table_name : String)
    (types : List (String × String)) (primary_key : Option (List String))
    (execR : String → PgResult Unit) : List String × Except PyExc Unit :=
  let q := create_table_query schema table_name types primary_key
  ([q], wrap_pg (execR q))

/-- The SELECT statement built by `DataManager.get_table` (note the source's
trailing space after the column list, then `f"{query} FROM ..."`). -/
def get_table_query (schema table_name : String)
    (columns : Option (List String)) : String :=
  let q := match columns with
    | none => "SELECT *"
    | some cs => "SELECT " ++ reformat_columns cs ++ " "
  q ++ " FROM " ++ schema ++ ".\"" ++ table_name ++ "\""

/-- `DataManager.get_table`: execute the SELECT, wrapping any backend error. -/
def get_table (schema table_name : String) (columns : Option (List String))
    (execR : String → PgResult Table) : Except PyExc Table :=
  wrap_pg (execR (get_table_query schema table_name columns))

/-- The catalog query of `DataManager.get_column_names`: the table name is
escaped by doubling single quotes, then interpolated as a string literal. -/
def column_names_query (table_name : String) : String :=
  "SELECT COLUMN_NAME FROM INFORMATION_SCHEMA.COLUMNS WHERE TABLE_NAME= \x27" ++
    (table_name.replace "\x27" "\x27\x27") ++ "\x27"

/-- `DataManager.get_column_names`. -/
def get_column_names (table_name : String)
    (execR : String → PgResult (List String)) : Except PyExc (List String) :=
  wrap_pg (execR (column_names_query table_name))

/-- `DataManager._connect`: `psycopg2.connect` wrapped the same way. -/
def connect (r : PgResult Unit) : Except PyExc Unit := wrap_pg r

/-- The externally visible state left behind by `create_and_fill_table`:
whether the table was created, whether it was filled, and whether the
temporary csv file still exists. -/
structure LoadState where
  tableCreated : Bool
  tableFilled : Bool
  tempFileExists : Bool
deriving DecidableEq, Repr

/-- `DataManager.create_and_fill_table`, with the two backend phases as
oracles: the CREATE TABLE execution and the `copy_from` + `commit` bulk
load.  After a successful creation the dataframe is written to the
temporary csv; on either copy outcome the source removes the file
(`os.remove` in both the try and the except branch) before returning or
re-raising.  (Failures outside `psycopg2.Error`, e.g. a type map naming a
column absent from the dataframe, are outside the modelled oracle.) -/
def create_and_fill_table (createR : PgResult Unit) (copyR : PgResult Unit) :
    LoadState × Except PyExc Unit :=
  match wrap_pg createR with
  | .error e =>
      (⟨false, false, false⟩, .error e)
  | .ok _ =>
      match copyR with
      | .ok _ => (⟨true, true, false⟩, .ok ())
      | .err m => (⟨true, false, false⟩, .error (.exception m))

/-! ### Spec-side renderings (for refinement-style comparisons)

Independently written from the spec's words, to be compared with the
query builders embedded from the source. -/

/-- Modelled from the spec: "a parenthesized, comma-separated, quoted
column list" — a direct recursive comma join. -/
def joinCommaSpec : List String → String
  | [] => ""
  | [s] => s
  | s :: rest => s ++ "," ++ joinCommaSpec rest

/-! ### Concrete example tables -/

/-- The table of the spec's worked example for the numerical analysis:
`Age = [10, 20, 30]`, `Sex = [M, F, M]`. -/
def exT3 : Table :=
  ⟨["Age", "Sex"], [[.num 10, .str "M"], [.num 20, .str "F"], [.num 30, .str "M"]]⟩

/-- A table whose grouping column `Sex` contains a missing value. -/
def exC2 : Table :=
  ⟨["Sex", "X"], [[.str "M", .num 1], [.null, .num 2]]⟩

/-- A table for the C2 witness: grouping column with a missing value and a
numeric data column. -/
def exC2w : Table :=
  ⟨["G", "Y"], [[.str "a", .num 5], [.null, .num 7]]⟩

/-- A table whose grouping column is named `Variable` and holds the value
`Name`, so the synthesized group key collides with the `Variable Name`
key of the accumulator. -/
def exC5 : Table :=
  ⟨["Variable", "X"], [[.str "Name", .num 1]]⟩

/-- A well-behaved grouped table (distinct keys) for witnesses. -/
def exC5w : Table :=
  ⟨["G", "X"], [[.str "a", .str "x"], [.str "b", .str "x"], [.str "a", .str "y"]]⟩

/-- The spec's worked example for the categorical analysis:
`Sex = [M, F, F, M, M]`, no grouping. -/
def exSex : Table :=
  ⟨["Sex"], [[.str "M"], [.str "F"], [.str "F"], [.str "M"], [.str "M"]]⟩

/-- Two-row numeric table, original row order. -/
def exT9a : Table :=
  ⟨["Age", "Sex"], [[.num 10, .str "M"], [.num 20, .str "F"]]⟩

/-- The same table with its rows swapped. -/
def exT9b : Table :=
  ⟨["Age", "Sex"], [[.num 20, .str "F"], [.num 10, .str "M"]]⟩

/-! ## Basic lemmas -/

theorem uniqueCells_aux (l : List Cell) (acc : List Cell) :
    (l.foldl (fun acc x => if x ∈ acc then acc else acc ++ [x]) acc).Nodup ↔
      acc.Nodup := by
  induction l generalizing acc with
  | nil => simp
  | cons x l ih =>
      by_cases hx : x ∈ acc
      · simp [hx, ih]
      · simp only [List.foldl_cons, if_neg hx, ih]
        simp [List.nodup_append, hx]

theorem mem_uniqueCells_aux (l : List Cell) (acc : List Cell) (y : Cell) :
    y ∈ l.foldl (fun acc x => if x ∈ acc then acc else acc ++ [x]) acc ↔
      y ∈ acc ∨ y ∈ l := by
  induction l generalizing acc with
  | nil => simp
  | cons x l ih =>
      by_cases hx : x ∈ acc
      · by_cases hxy : y = x <;> simp_all [List.foldl_cons]
      · simp only [List.foldl_cons, if_neg hx, ih]
        by_cases hxy : y = x <;> simp_all

theorem uniqueCells_nodup (l : List Cell) : (uniqueCells l).Nodup := by
  simpa [uniqueCells] using (uniqueCells_aux l []).2 List.nodup_nil

theorem mem_uniqueCells (l : List Cell) (y : Cell) :
    y ∈ uniqueCells l ↔ y ∈ l := by
  simpa [uniqueCells] using mem_uniqueCells_aux l [] y

/-- For a non-missing cell, pandas `==` coincides with equality. -/
theorem Cell.beq_eq_of_not_null (c d : Cell) (h : c.isNull = false) :
    Cell.beq c d = decide (c = d) := by
  cases c <;> cases d <;> simp_all [Cell.beq, Cell.isNull, beq_eq_decide]

theorem Cell.beq_null_right (c : Cell) : Cell.beq c Cell.null = false := by
  cases c <;> rfl

theorem Table.col_length (t : Table) (c : String) :
    (t.col c).length = t.rows.length := by
  simp [Table.col]

theorem rowCell_mem_col (t : Table) (r : List Cell) (c : String)
    (hr : r ∈ t.rows) : rowCell t.headers r c ∈ t.col c :=
  List.mem_map_of_mem _ hr

/-- A column with at least one non-missing value has a positive `total`. -/
theorem col_total_pos (t : Table) (col : String) (category : Cell)
    (hc : category ∈ cat_categories t col) : col_total t col ≠ 0 := by
  have hmem : category ∈ (t.col col).filter (fun c => !c.isNull) := by
    simpa [cat_categories, mem_uniqueCells] using hc
  have hlt : ((t.col col).filter Cell.isNull).length < (t.col col).length := by
    have hsub : (t.col col).length = ((t.col col).filter Cell.isNull).length +
        ((t.col col).filter (fun c => !c.isNull)).length :=
      List.length_eq_length_filter_add (l := t.col col) Cell.isNull
    have hpos : 0 < ((t.col col).filter (fun c => !c.isNull)).length :=
      List.length_pos.2 (List.ne_nil_of_mem hmem)
    omega
  have := Table.col_length t col
  simp only [col_total, Table.nrows]
  omega

/-! ## Dictionary lemmas -/

theorem dictAppend_nil (k : String) (v : String) : dictAppend [] k v = [] := rfl

theorem dictAppend_cons (p : String × List String) (d : RDict) (k v : String) :
    dictAppend (p :: d) k v =
      (if p.1 == k then (p.1, p.2 ++ [v]) else p) :: dictAppend d k v := rfl

theorem dictKeys_dictAppend (d : RDict) (k v : String) :
    dictKeys (dictAppend d k v) = dictKeys d := by
  induction d with
  | nil => rfl
  | cons p d ih =>
      by_cases h : p.1 == k <;> simp [dictAppend_cons, h, dictKeys, ih] <;>
        simpa [dictKeys] using ih

theorem dictAppendMany_nil (d : RDict) : dictAppendMany d [] = d := rfl

theorem dictAppendMany_cons (d : RDict) (kv : String × String)
    (kvs : List (String × String)) :
    dictAppendMany d (kv :: kvs) = dictAppendMany (dictAppend d kv.1 kv.2) kvs := rfl

theorem dictAppendMany_append (d : RDict) (a b : List (String × String)) :
    dictAppendMany d (a ++ b) = dictAppendMany (dictAppendMany d a) b := by
  simp [dictAppendMany, List.foldl_append]

/-- Closed form: a sequence of appends extends each entry by the values
appended to its key, in order. -/
theorem dictAppendMany_eq_map (d : RDict) (kvs : List (String × String)) :
    dictAppendMany d kvs =
      d.map (fun p =>
        (p.1, p.2 ++ (kvs.filter (fun kv => kv.1 == p.1)).map Prod.snd)) := by
  induction kvs generalizing d with
  | nil => simp [dictAppendMany]
  | cons kv kvs ih =>
      rw [dictAppendMany_cons, ih, dictAppend]
      rw [List.map_map]
      refine List.map_congr_left (fun p _ => ?_)
      by_cases h : p.1 == kv.1
      · have h2 : kv.1 == p.1 := by
          simp only [beq_iff_eq] at h ⊢; exact h.symm
        simp [Function.comp, h, h2, List.filter_cons]
      · have h2 : ¬ (kv.1 == p.1) := by
          simp only [beq_iff_eq] at h ⊢; exact fun hh => h hh.symm
        simp [Function.comp, h, h2, List.filter_cons]

/-- The entry lengths after a sequence of appends. -/
theorem dictAppendMany_lengths (d : RDict) (kvs : List (String × String))
    (p : String × List String) (hp : p ∈ dictAppendMany d kvs) :
    ∃ q ∈ d, p.1 = q.1 ∧
      p.2.length = q.2.length + (kvs.countP (fun kv => kv.1 == q.1)) := by
  rw [dictAppendMany_eq_map] at hp
  obtain ⟨q, hq, rfl⟩ := List.mem_map.1 hp
  exact ⟨q, hq, rfl, by simp [List.countP_eq_length_filter]⟩

/-- In a list of keys without duplicates, a present key is counted once. -/
theorem countP_eq_one_of_nodup (l : List String) (k : String)
    (hnd : l.Nodup) (hk : k ∈ l) : l.countP (fun s => s == k) = 1 := by
  induction l with
  | nil => cases hk
  | cons a l ih =>
      have hnd2 := List.nodup_cons.1 hnd
      by_cases hak : a = k
      · subst hak
        have hz : l.countP (fun s => s == a) = 0 :=
          List.countP_eq_zero.2 (fun s hs => by
            simp only [beq_iff_eq]
            rintro rfl
            exact hnd2.1 hs)
        simp [List.countP_cons, hz]
      · have hk2 : k ∈ l := by
          rcases List.mem_cons.1 hk with h | h
          · exact absurd h.symm hak
          · exact h
        simp [List.countP_cons, hak, beq_iff_eq, ih hnd2.2 hk2]

/-! ## The numerical analysis as a sequence of appends -/

theorem numStepGroup_fold (t : Table) (g col : String) (gvals : List Cell)
    (d : RDict) :
    gvals.foldl (numStepGroup t g col) d =
      dictAppendMany d
        (gvals.map (fun gv => (group_key g gv, num_group_entry t g gv col))) := by
  induction gvals generalizing d with
  | nil => rfl
  | cons gv gvals ih =>
      rw [List.foldl_cons, List.map_cons, dictAppendMany_cons]
      exact ih _

theorem numStepCol_eq (t : Table) (group : Option String) (gvals : List Cell)
    (d : RDict) (col : String) :
    numStepCol t group gvals d col = dictAppendMany d (numColKVs t group gvals col) := by
  cases group with
  | none => simp [numStepCol, numColKVs, dictAppendMany]
  | some g =>
      simp [numStepCol, numColKVs, dictAppendMany_cons, numStepGroup_fold]

theorem num_results_eq (t : Table) (group : Option String) :
    num_results t group =
      dictAppendMany (initialize_results_dict t group).1
        ((analysis_cols t group).flatMap
          (numColKVs t group (initialize_results_dict t group).2)) := by
  have main : ∀ (cols : List String) (d : RDict),
      cols.foldl (numStepCol t group (initialize_results_dict t group).2) d =
        dictAppendMany d
          (cols.flatMap (numColKVs t group (initialize_results_dict t group).2)) := by
    intro cols
    induction cols with
    | nil => intro d; simp [dictAppendMany]
    | cons c cols ih =>
        intro d
        rw [List.foldl_cons, numStepCol_eq, ih, List.flatMap_cons,
          dictAppendMany_append]
  exact main _ _

/-! ## The initial accumulator under distinct keys -/

theorem dictSet_fresh (d : RDict) (k : String) (v : List String)
    (hk : k ∉ dictKeys d) : dictSet d k v = d ++ [(k, v)] := by
  have : d.any (fun p => p.1 == k) = false := by
    refine List.any_eq_false.2 (fun p hp => ?_)
    simp only [beq_iff_eq]
    intro h
    exact hk (h ▸ List.mem_map_of_mem Prod.fst hp)
  simp [dictSet, this]

theorem foldl_dictSet_fresh (g : String) :
    ∀ (vs : List Cell) (front : RDict),
      (∀ v ∈ vs, group_key g v ∉ dictKeys front) →
      (vs.map (group_key g)).Nodup →
      vs.foldl (fun d gv => dictSet d (group_key g gv) []) front =
        front ++ vs.map (fun gv => (group_key g gv, [])) := by
  intro vs
  induction vs with
  | nil => intro front _ _; simp
  | cons v vs ih =>
      intro front hfresh hnd
      rw [List.map_cons, List.nodup_cons] at hnd
      obtain ⟨hnv, hnd2⟩ := hnd
      rw [List.foldl_cons,
        dictSet_fresh front (group_key g v) [] (hfresh v (by simp))]
      rw [ih (front ++ [(group_key g v, [])])
        (fun w hw => by
          have h1 : group_key g w ∉ dictKeys front := hfresh w (by simp [hw])
          have h2 : group_key g w ≠ group_key g v := fun h =>
            hnv (h ▸ List.mem_map_of_mem (group_key g) hw)
          simp only [dictKeys, List.map_append, List.mem_append, List.map_cons,
            List.map_nil, List.mem_singleton]
          rintro (h | h)
          · exact h1 h
          · exact h2 h)
        hnd2]
      simp

theorem initialize_results_dict_some (t : Table) (g : String)
    (hnd : (analysisKeys t (some g)).Nodup) :
    (initialize_results_dict t (some g)).1 =
      (VAR_NAME, ([] : List String)) :: (ALL, []) ::
        (uniqueCells (t.col g)).map (fun gv => (group_key g gv, [])) := by
  simp only [analysisKeys] at hnd
  have h1 : VAR_NAME ∉ ALL :: (uniqueCells (t.col g)).map (group_key g) :=
    (List.nodup_cons.1 hnd).1
  have hrest := (List.nodup_cons.1 hnd).2
  have h2 : ALL ∉ (uniqueCells (t.col g)).map (group_key g) :=
    (List.nodup_cons.1 hrest).1
  have hnd2 : ((uniqueCells (t.col g)).map (group_key g)).Nodup :=
    (List.nodup_cons.1 hrest).2
  have hfresh : ∀ v ∈ uniqueCells (t.col g),
      group_key g v ∉ dictKeys [(VAR_NAME, ([] : List String)), (ALL, [])] := by
    intro v hv
    have hkv : group_key g v ∈ (uniqueCells (t.col g)).map (group_key g) :=
      List.mem_map_of_mem _ hv
    simp only [dictKeys, List.map_cons, List.map_nil, List.mem_cons,
      List.not_mem_nil, or_false]
    rintro (h | h)
    · exact h1 (h ▸ List.mem_cons_of_mem _ hkv)
    · exact h2 (h ▸ hkv)
  simp only [initialize_results_dict]
  rw [foldl_dictSet_fresh g (uniqueCells (t.col g))
    [(VAR_NAME, []), (ALL, [])] hfresh hnd2]
  rfl

/-! ## Characterisation of the numerical analysis -/

theorem flatMap_singleton_map {α β : Type} (l : List α) (f : α → β) :
    (l.flatMap (fun x => [f x])) = l.map f := by
  induction l with
  | nil => rfl
  | cons x l ih => simp [List.flatMap_cons, ih]

theorem filter_key_map (g : String) (f : Cell → String) (gv0 : Cell) :
    ∀ (gvals : List Cell), (gvals.map (group_key g)).Nodup → gv0 ∈ gvals →
      (gvals.map (fun gv => (group_key g gv, f gv))).filter
          (fun kv => kv.1 == group_key g gv0) = [(group_key g gv0, f gv0)] := by
  intro gvals
  induction gvals with
  | nil => intro _ h; cases h
  | cons a gvals ih =>
      intro hnd h0
      rw [List.map_cons, List.nodup_cons] at hnd
      obtain ⟨hna, hnd2⟩ := hnd
      rcases List.mem_cons.1 h0 with rfl | hmem
      · have hz : (gvals.map (fun gv => (group_key g gv, f gv))).filter
            (fun kv => kv.1 == group_key g gv0) = [] := by
          refine List.filter_eq_nil_iff.2 ?_
          rintro kv hkv
          obtain ⟨gv, hgv, rfl⟩ := List.mem_map.1 hkv
          simp only [beq_iff_eq]
          intro h
          exact hna (h ▸ List.mem_map_of_mem _ hgv)
        simp [List.filter_cons, hz]
      · have hne : (group_key g a == group_key g gv0) = false := by
          rw [beq_eq_false_iff_ne]
          intro h
          exact hna (h ▸ List.mem_map_of_mem _ hmem)
        simp [List.filter_cons, hne, ih hnd2 hmem]

theorem filter_key_map_nil (g : String) (f : Cell → String) (k : String)
    (gvals : List Cell) (hk : k ∉ gvals.map (group_key g)) :
    (gvals.map (fun gv => (group_key g gv, f gv))).filter
        (fun kv => kv.1 == k) = [] := by
  refine List.filter_eq_nil_iff.2 ?_
  rintro kv hkv
  obtain ⟨gv, hgv, rfl⟩ := List.mem_map.1 hkv
  simp only [beq_iff_eq]
  intro h
  exact hk (h ▸ List.mem_map_of_mem _ hgv)

theorem num_results_char_none (t : Table) :
    num_results t none =
      [(VAR_NAME, t.headers), (ALL, t.headers.map (num_all_entry t))] := by
  rw [num_results_eq, dictAppendMany_eq_map]
  have hsegVN : ∀ col, ((numColKVs t none [] col).filter
      (fun kv => kv.1 == VAR_NAME)) = [(VAR_NAME, col)] := by
    intro col
    simp [numColKVs, List.filter_cons, show (ALL == VAR_NAME) = false by decide]
  have hsegALL : ∀ col, ((numColKVs t none [] col).filter
      (fun kv => kv.1 == ALL)) = [(ALL, num_all_entry t col)] := by
    intro col
    simp [numColKVs, List.filter_cons, show (VAR_NAME == ALL) = false by decide]
  have hVN : (((analysis_cols t none).flatMap (numColKVs t none [])).filter
      (fun kv => kv.1 == VAR_NAME)).map Prod.snd = t.headers := by
    rw [List.filter_flatMap]
    simp only [hsegVN]
    rw [List.map_flatMap]
    simp [analysis_cols]
  have hALL : (((analysis_cols t none).flatMap (numColKVs t none [])).filter
      (fun kv => kv.1 == ALL)).map Prod.snd = t.headers.map (num_all_entry t) := by
    rw [List.filter_flatMap]
    simp only [hsegALL]
    rw [List.map_flatMap]
    have := flatMap_singleton_map (analysis_cols t none) (num_all_entry t)
    simpa [analysis_cols] using this
  simp only [initialize_results_dict, List.map_cons, List.map_nil]
  simp [hVN, hALL]

theorem num_results_char_some (t : Table) (g : String)
    (hnd : (analysisKeys t (some g)).Nodup) :
    num_results t (some g) =
      (VAR_NAME, analysis_cols t (some g)) ::
        (ALL, (analysis_cols t (some g)).map (num_all_entry t)) ::
        (uniqueCells (t.col g)).map (fun gv =>
          (group_key g gv,
            (analysis_cols t (some g)).map (fun col => num_group_entry t g gv col))) := by
  have hgv : (initialize_results_dict t (some g)).2 = uniqueCells (t.col g) := rfl
  have hkeys := hnd
  simp only [analysisKeys] at hkeys
  have h1 : VAR_NAME ∉ ALL :: (uniqueCells (t.col g)).map (group_key g) :=
    (List.nodup_cons.1 hkeys).1
  have hrest := (List.nodup_cons.1 hkeys).2
  have h2 : ALL ∉ (uniqueCells (t.col g)).map (group_key g) :=
    (List.nodup_cons.1 hrest).1
  have hgnd : ((uniqueCells (t.col g)).map (group_key g)).Nodup :=
    (List.nodup_cons.1 hrest).2
  have h1g : VAR_NAME ∉ (uniqueCells (t.col g)).map (group_key g) := by
    intro h
    exact h1 (List.mem_cons_of_mem _ h)
  rw [num_results_eq, initialize_results_dict_some t g hnd, hgv,
    dictAppendMany_eq_map]
  rw [List.map_cons, List.map_cons, List.map_map]
  -- the big key/value list appended by the column loop
  set bigKVs := (analysis_cols t (some g)).flatMap
    (numColKVs t (some g) (uniqueCells (t.col g))) with hbig
  have hsegVN : ∀ col, ((numColKVs t (some g) (uniqueCells (t.col g)) col).filter
      (fun kv => kv.1 == VAR_NAME)) = [(VAR_NAME, col)] := by
    intro col
    simp only [numColKVs, List.filter_cons, beq_self_eq_true, if_pos,
      show (ALL == VAR_NAME) = false by decide, Bool.false_eq_true, if_neg,
      filter_key_map_nil g _ VAR_NAME _ h1g]
    simp
  have hsegALL : ∀ col, ((numColKVs t (some g) (uniqueCells (t.col g)) col).filter
      (fun kv => kv.1 == ALL)) = [(ALL, num_all_entry t col)] := by
    intro col
    simp only [numColKVs, List.filter_cons, beq_self_eq_true,
      show (VAR_NAME == ALL) = false by decide, Bool.false_eq_true, if_neg,
      filter_key_map_nil g _ ALL _ h2]
    simp
  have hVN : (bigKVs.filter (fun kv => kv.1 == VAR_NAME)).map Prod.snd =
      analysis_cols t (some g) := by
    rw [hbig, List.filter_flatMap]
    simp only [hsegVN]
    rw [List.map_flatMap]
    simp
  have hALL : (bigKVs.filter (fun kv => kv.1 == ALL)).map Prod.snd =
      (analysis_cols t (some g)).map (num_all_entry t) := by
    rw [hbig, List.filter_flatMap]
    simp only [hsegALL]
    rw [List.map_flatMap]
    simpa using flatMap_singleton_map (analysis_cols t (some g)) (num_all_entry t)
  refine congrArg₂ List.cons (by simp [hVN]) (congrArg₂ List.cons (by simp [hALL]) ?_)
  refine List.map_congr_left (fun gv hgvmem => ?_)
  have hkgv : (group_key g gv == VAR_NAME) = false := by
    rw [beq_eq_false_iff_ne]
    intro h
    exact h1g (h ▸ List.mem_map_of_mem _ hgvmem)
  have hkgv2 : (group_key g gv == ALL) = false := by
    rw [beq_eq_false_iff_ne]
    intro h
    exact h2 (h ▸ List.mem_map_of_mem _ hgvmem)
  have hseg : ∀ col, ((numColKVs t (some g) (uniqueCells (t.col g)) col).filter
      (fun kv => kv.1 == group_key g gv)) = [(group_key g gv, num_group_entry t g gv col)] := by
    intro col
    have hVNne : (VAR_NAME == group_key g gv) = false := by
      rw [beq_eq_false_iff_ne]
      intro h
      exact h1g (h.symm ▸ List.mem_map_of_mem _ hgvmem)
    have hALLne : (ALL == group_key g gv) = false := by
      rw [beq_eq_false_iff_ne]
      intro h
      exact h2 (h.symm ▸ List.mem_map_of_mem _ hgvmem)
    simp only [numColKVs, List.filter_cons, hVNne, hALLne, Bool.false_eq_true,
      if_neg, filter_key_map g _ gv _ hgnd hgvmem]
    simp
  have hgvfilter : (bigKVs.filter (fun kv => kv.1 == group_key g gv)).map Prod.snd =
      (analysis_cols t (some g)).map (fun col => num_group_entry t g gv col) := by
    rw [hbig, List.filter_flatMap]
    simp only [hseg]
    rw [List.map_flatMap]
    simpa using flatMap_singleton_map (analysis_cols t (some g))
      (fun col => num_group_entry t g gv col)
  simp [hgvfilter]

/-! ## The categorical analysis as a sequence of appends -/

theorem catStepGroup_eq (t : Table) (g col : String) (category : Cell)
    (d : RDict) (gv : Cell) :
    catStepGroup t g col category d gv =
      if group_total t g gv col = 0 then .error "ZeroDivisionError"
      else .ok (dictAppend d (group_key g gv) (cat_group_entry t g gv col category)) := by
  unfold catStepGroup pctEntry
  by_cases hb : group_total t g gv col = 0
  · rw [if_pos hb, if_pos hb]
    rfl
  · rw [if_neg hb, if_neg hb]
    rfl

theorem catStepCategory_eq (t : Table) (group : Option String)
    (gvals : List Cell) (col : String) (d : RDict) (category : Cell) :
    catStepCategory t group gvals col d category =
      if col_total t col = 0 then .error "ZeroDivisionError"
      else
        match group with
        | none => .ok (dictAppend (dictAppend d VAR_NAME (cat_label col category))
            ALL (cat_all_entry t col category))
        | some g => gvals.foldlM (catStepGroup t g col category)
            (dictAppend (dictAppend d VAR_NAME (cat_label col category))
              ALL (cat_all_entry t col category)) := by
  unfold catStepCategory pctEntry
  by_cases hb : col_total t col = 0
  · rw [if_pos hb, if_pos hb]
    rfl
  · rw [if_neg hb, if_neg hb]
    rfl

/-- A successful monadic fold whose every step is a batch of appends is
itself a batch of appends, with the concatenated keys. -/
theorem foldlM_ok_appendMany {β : Type} (step : RDict → β → Except String RDict)
    (Keys : β → List String)
    (hstep : ∀ d x d2, step d x = .ok d2 →
      ∃ kvs : List (String × String), kvs.map Prod.fst = Keys x ∧
        d2 = dictAppendMany d kvs) :
    ∀ (l : List β) (d d2), l.foldlM step d = .ok d2 →
      ∃ kvs : List (String × String), kvs.map Prod.fst = l.flatMap Keys ∧
        d2 = dictAppendMany d kvs := by
  intro l
  induction l with
  | nil =>
      intro d d2 h
      simp only [List.foldlM_nil] at h
      have hd : d = d2 := by
        have : (Except.ok d : Except String RDict) = .ok d2 := h
        injection this
      exact ⟨[], by simp, by simp [hd, dictAppendMany]⟩
  | cons x l ih =>
      intro d d2 h
      rw [List.foldlM_cons] at h
      cases hx : step d x with
      | error e =>
          rw [hx] at h
          exact absurd h (by simp [Bind.bind, Except.bind])
      | ok d1 =>
          rw [hx] at h
          have h2 : l.foldlM step d1 = .ok d2 := h
          obtain ⟨kvs1, hk1, hd1⟩ := hstep d x d1 hx
          obtain ⟨kvs2, hk2, hd2⟩ := ih d1 d2 h2
          refine ⟨kvs1 ++ kvs2, ?_, ?_⟩
          · simp [hk1, hk2, List.flatMap_cons]
          · rw [hd2, hd1, dictAppendMany_append]

theorem catStepGroup_ok_kvs (t : Table) (g col : String) (category : Cell) :
    ∀ (d : RDict) (gv : Cell) (d2 : RDict),
      catStepGroup t g col category d gv = .ok d2 →
      ∃ kvs : List (String × String), kvs.map Prod.fst = [group_key g gv] ∧
        d2 = dictAppendMany d kvs := by
  intro d gv d2 h
  rw [catStepGroup_eq] at h
  by_cases hb : group_total t g gv col = 0
  · rw [if_pos hb] at h
    cases h
  · rw [if_neg hb] at h
    have : dictAppend d (group_key g gv) (cat_group_entry t g gv col category) = d2 := by
      injection h
    exact ⟨[(group_key g gv, cat_group_entry t g gv col category)], by simp,
      by rw [← this]; rfl⟩

theorem catStepCategory_ok_kvs (t : Table) (group : Option String)
    (gvals : List Cell) (col : String) :
    ∀ (d : RDict) (category : Cell) (d2 : RDict),
      catStepCategory t group gvals col d category = .ok d2 →
      ∃ kvs : List (String × String), kvs.map Prod.fst = catKeys group gvals ∧
        d2 = dictAppendMany d kvs := by
  intro d category d2 h
  rw [catStepCategory_eq] at h
  by_cases hb : col_total t col = 0
  · rw [if_pos hb] at h
    cases h
  · rw [if_neg hb] at h
    cases group with
    | none =>
        have : dictAppend (dictAppend d VAR_NAME (cat_label col category))
            ALL (cat_all_entry t col category) = d2 := by injection h
        exact ⟨[(VAR_NAME, cat_label col category), (ALL, cat_all_entry t col category)],
          by simp [catKeys], by rw [← this]; rfl⟩
    | some g =>
        obtain ⟨kvs, hk, hd⟩ := foldlM_ok_appendMany (catStepGroup t g col category)
          (fun gv => [group_key g gv]) (catStepGroup_ok_kvs t g col category)
          gvals _ d2 h
        refine ⟨(VAR_NAME, cat_label col category) ::
          (ALL, cat_all_entry t col category) :: kvs, ?_, ?_⟩
        · simp only [List.map_cons, hk, catKeys]
          rw [flatMap_singleton_map]
        · rw [hd]
          rfl

theorem catStepCol_ok_kvs (t : Table) (group : Option String)
    (gvals : List Cell) :
    ∀ (d : RDict) (col : String) (d2 : RDict),
      catStepCol t group gvals d col = .ok d2 →
      ∃ kvs : List (String × String),
        kvs.map Prod.fst = (cat_categories t col).flatMap (fun _ => catKeys group gvals) ∧
        d2 = dictAppendMany d kvs := by
  intro d col d2 h
  exact foldlM_ok_appendMany (catStepCategory t group gvals col)
    (fun _ => catKeys group gvals) (catStepCategory_ok_kvs t group gvals col)
    (cat_categories t col) d d2 h

theorem cat_results_ok_kvs (t : Table) (group : Option String) (d2 : RDict)
    (h : cat_results t group = .ok d2) :
    ∃ kvs : List (String × String),
      kvs.map Prod.fst = (analysis_cols t group).flatMap (fun col =>
        (cat_categories t col).flatMap
          (fun _ => catKeys group (initialize_results_dict t group).2)) ∧
      d2 = dictAppendMany (initialize_results_dict t group).1 kvs := by
  exact foldlM_ok_appendMany (catStepCol t group (initialize_results_dict t group).2)
    (fun col => (cat_categories t col).flatMap
      (fun _ => catKeys group (initialize_results_dict t group).2))
    (catStepCol_ok_kvs t group (initialize_results_dict t group).2)
    (analysis_cols t group) _ d2 h

/-! ## Alignment of the accumulator -/

theorem countP_flatMap {α : Type} (l : List α) (f : α → List String)
    (p : String → Bool) :
    (l.flatMap f).countP p = (l.map (fun x => (f x).countP p)).sum := by
  induction l with
  | nil => rfl
  | cons x l ih => simp [List.flatMap_cons, List.countP_append, ih]

theorem sum_map_const_one {α : Type} (l : List α) :
    (l.map (fun _ => (1 : ℕ))).sum = l.length := by
  induction l with
  | nil => rfl
  | cons x l ih => simp [ih, Nat.add_comm]

theorem dictAligned_of_const (d : RDict) (n : ℕ)
    (h : ∀ p ∈ d, p.2.length = n) : dictAligned d = true := by
  cases d with
  | nil => rfl
  | cons p ps =>
      simp only [dictAligned, List.all_eq_true]
      intro q hq
      rw [h q (List.mem_cons_of_mem _ hq), h p (List.mem_cons_self _ _)]
      simp

theorem initialize_results_dict_entries (t : Table) (group : Option String)
    (hnd : (analysisKeys t group).Nodup) :
    (initialize_results_dict t group).1 =
      (analysisKeys t group).map (fun k => (k, ([] : List String))) := by
  cases group with
  | none => rfl
  | some g =>
      rw [initialize_results_dict_some t g hnd]
      simp [analysisKeys, List.map_map]

theorem catKeys_init (t : Table) (group : Option String) :
    catKeys group (initialize_results_dict t group).2 = analysisKeys t group := by
  cases group <;> rfl

/-- The number of result rows of the categorical analysis: one per
(column, category) pair. -/
theorem cat_results_aligned (t : Table) (group : Option String) (d2 : RDict)
    (hnd : (analysisKeys t group).Nodup) (h : cat_results t group = .ok d2) :
    dictAligned d2 = true := by
  obtain ⟨kvs, hk, hd⟩ := cat_results_ok_kvs t group d2 h
  rw [catKeys_init] at hk
  refine dictAligned_of_const d2
    (((analysis_cols t group).map (fun col => (cat_categories t col).length)).sum)
    (fun p hp => ?_)
  rw [hd, initialize_results_dict_entries t group hnd] at hp
  obtain ⟨q, hq, hfst, hlen⟩ := dictAppendMany_lengths _ kvs p hp
  obtain ⟨k, hkmem, rfl⟩ := List.mem_map.1 hq
  have hcount : kvs.countP (fun kv => kv.1 == k) =
      (kvs.map Prod.fst).countP (fun s => s == k) := by
    rw [List.countP_map]
    rfl
  rw [hlen, hcount, hk, countP_flatMap]
  have hseg : ∀ col, ((cat_categories t col).flatMap
      (fun _ => analysisKeys t group)).countP (fun s => s == k) =
      (cat_categories t col).length := by
    intro col
    rw [countP_flatMap]
    have h1 : (analysisKeys t group).countP (fun s => s == k) = 1 :=
      countP_eq_one_of_nodup _ k hnd hkmem
    simp only [h1]
    exact sum_map_const_one _
  simp only [hseg, List.length_nil, Nat.zero_add]

theorem num_results_aligned (t : Table) (group : Option String)
    (hnd : (analysisKeys t group).Nodup) :
    dictAligned (num_results t group) = true := by
  cases group with
  | none =>
      rw [num_results_char_none]
      refine dictAligned_of_const _ t.headers.length (fun p hp => ?_)
      rcases List.mem_cons.1 hp with h | hp2
      · rw [h]
      · rcases List.mem_cons.1 hp2 with h | hp3
        · rw [h]; simp
        · cases hp3
  | some g =>
      rw [num_results_char_some t g hnd]
      refine dictAligned_of_const _ (analysis_cols t (some g)).length (fun p hp => ?_)
      rcases List.mem_cons.1 hp with h | hp2
      · rw [h]
      · rcases List.mem_cons.1 hp2 with h | hp3
        · rw [h]; simp
        · obtain ⟨gv, _, rfl⟩ := List.mem_map.1 hp3
          simp

/-! ## Partition counting (grouped counts sum to the total) -/

theorem sum_indicator_one (gvals : List Cell) (c : Cell) (hnd : gvals.Nodup)
    (hc : c ∈ gvals) :
    (gvals.map (fun gv => if c = gv then (1 : ℕ) else 0)).sum = 1 := by
  induction gvals with
  | nil => cases hc
  | cons a l ih =>
      rw [List.nodup_cons] at hnd
      obtain ⟨ha, hnd2⟩ := hnd
      rcases List.mem_cons.1 hc with rfl | hc2
      · have hz : (l.map (fun gv => if c = gv then (1 : ℕ) else 0)).sum = 0 := by
          refine List.sum_eq_zero (fun x hx => ?_)
          obtain ⟨gv, hgv, rfl⟩ := List.mem_map.1 hx
          have : ¬ c = gv := fun h => ha (h ▸ hgv)
          simp [this]
        simp [hz]
      · have hca : ¬ c = a := fun h => ha (h ▸ hc2)
        simp [hca, ih hnd2 hc2]

theorem length_filter_cons_split (p : List Cell → Bool) (r : List Cell)
    (rows : List (List Cell)) :
    (List.filter p (r :: rows)).length =
      (if p r then 1 else 0) + (List.filter p rows).length := by
  by_cases h : p r <;> simp [List.filter_cons, h, Nat.add_comm]

theorem sum_map_add_nat {α : Type} (l : List α) (f g : α → ℕ) :
    (l.map (fun x => f x + g x)).sum = (l.map f).sum + (l.map g).sum := by
  induction l with
  | nil => rfl
  | cons x l ih => simp [ih]; omega

/-- Rows whose grouping cell is a non-missing member of a duplicate-free
list of group values are counted exactly once across the groups. -/
theorem length_filter_partition (hs : List String) (g col : String)
    (cat : Cell) (gvals : List Cell) (hnd : gvals.Nodup) :
    ∀ (rows : List (List Cell)),
      (∀ r ∈ rows, (rowCell hs r g).isNull = false ∧ rowCell hs r g ∈ gvals) →
      (gvals.map (fun gv => (rows.filter (fun r =>
          Cell.beq (rowCell hs r g) gv && Cell.beq (rowCell hs r col) cat)).length)).sum
        = (rows.filter (fun r => Cell.beq (rowCell hs r col) cat)).length := by
  intro rows
  induction rows with
  | nil => intro _; simp
  | cons r rows ih =>
      intro hr
      have hhead := hr r (List.mem_cons_self _ _)
      have htail := fun r' h => hr r' (List.mem_cons_of_mem _ h)
      have hbeq : ∀ gv, Cell.beq (rowCell hs r g) gv = decide (rowCell hs r g = gv) :=
        fun gv => Cell.beq_eq_of_not_null _ gv hhead.1
      rw [length_filter_cons_split]
      have hLHS : ∀ gv, (List.filter (fun r => Cell.beq (rowCell hs r g) gv &&
          Cell.beq (rowCell hs r col) cat) (r :: rows)).length =
          (if Cell.beq (rowCell hs r g) gv && Cell.beq (rowCell hs r col) cat
            then 1 else 0) +
          (List.filter (fun r => Cell.beq (rowCell hs r g) gv &&
            Cell.beq (rowCell hs r col) cat) rows).length :=
        fun gv => length_filter_cons_split _ r rows
      simp only [hLHS]
      rw [sum_map_add_nat, ih htail]
      by_cases hq : Cell.beq (rowCell hs r col) cat
      · have hind : (gvals.map (fun gv =>
            if Cell.beq (rowCell hs r g) gv && Cell.beq (rowCell hs r col) cat
            then 1 else 0)).sum = 1 := by
          have : ∀ gv : Cell, (if Cell.beq (rowCell hs r g) gv &&
              Cell.beq (rowCell hs r col) cat then 1 else 0) =
              (if rowCell hs r g = gv then (1 : ℕ) else 0) := by
            intro gv
            rw [hbeq gv, hq]
            by_cases hgv : rowCell hs r g = gv <;> simp [hgv]
          simp only [this]
          exact sum_indicator_one gvals _ hnd hhead.2
        rw [hind, if_pos hq]
        try omega
      · have hind : (gvals.map (fun gv =>
            if Cell.beq (rowCell hs r g) gv && Cell.beq (rowCell hs r col) cat
            then 1 else 0)).sum = 0 := by
          refine List.sum_eq_zero (fun x hx => ?_)
          obtain ⟨gv, _, rfl⟩ := List.mem_map.1 hx
          simp [hq]
        rw [hind, if_neg hq]
        try omega

/-! ## Permutation invariance of the numerical statistics -/

theorem minOpt_perm (l l' : List ℚ) (h : l.Perm l') : minOpt l = minOpt l' := by
  induction h with
  | nil => rfl
  | cons x h ih => simp [minOpt] at ih ⊢; rw [ih]
  | swap x y l =>
      simp only [minOpt, List.foldr_cons]
      cases l.foldr (fun x acc =>
        match acc with
        | none => some x
        | some y => some (min x y)) none with
      | none => simp [min_comm]
      | some m => simp [min_left_comm]
  | trans h1 h2 ih1 ih2 => exact ih1.trans ih2

theorem maxOpt_perm (l l' : List ℚ) (h : l.Perm l') : maxOpt l = maxOpt l' := by
  induction h with
  | nil => rfl
  | cons x h ih => simp [maxOpt] at ih ⊢; rw [ih]
  | swap x y l =>
      simp only [maxOpt, List.foldr_cons]
      cases l.foldr (fun x acc =>
        match acc with
        | none => some x
        | some y => some (max x y)) none with
      | none => simp [max_comm]
      | some m => simp [max_left_comm]
  | trans h1 h2 ih1 ih2 => exact ih1.trans ih2

theorem get_numerical_column_stats_perm (cells cells' : List Cell)
    (h : cells.Perm cells') :
    get_numerical_column_stats cells = get_numerical_column_stats cells' := by
  have hfm : (cells.filterMap Cell.toFloat).Perm (cells'.filterMap Cell.toFloat) :=
    h.filterMap _
  have h1 := hfm.length_eq
  have h2 := hfm.sum_eq
  have h3 := (hfm.map (fun x => x ^ 2)).sum_eq
  have h4 := minOpt_perm _ _ hfm
  have h5 := maxOpt_perm _ _ hfm
  simp only [get_numerical_column_stats, h1, h2, h3, h4, h5]

theorem num_entry_perm (cells cells' : List Cell) (h : cells.Perm cells') :
    num_entry cells = num_entry cells' := by
  simp only [num_entry, get_numerical_column_stats_perm cells cells' h]

theorem col_perm (t t2 : Table) (hh : t2.headers = t.headers)
    (hr : t2.rows.Perm t.rows) (c : String) : (t2.col c).Perm (t.col c) := by
  simp only [Table.col, hh]
  exact hr.map _

theorem num_all_entry_perm (t t2 : Table) (hh : t2.headers = t.headers)
    (hr : t2.rows.Perm t.rows) (col : String) :
    num_all_entry t2 col = num_all_entry t col :=
  num_entry_perm _ _ (col_perm t t2 hh hr col)

theorem num_group_entry_perm (t t2 : Table) (hh : t2.headers = t.headers)
    (hr : t2.rows.Perm t.rows) (g : String) (gv : Cell) (col : String) :
    num_group_entry t2 g gv col = num_group_entry t g gv col := by
  apply num_entry_perm
  simp only [num_group_entry, Table.filterRows, Table.col, hh]
  exact (hr.filter _).map _

theorem uniqueCells_perm (l l' : List Cell) (h : l.Perm l') :
    (uniqueCells l).Perm (uniqueCells l') := by
  apply List.perm_of_nodup_nodup_toFinset_eq (uniqueCells_nodup l)
    (uniqueCells_nodup l')
  ext a
  simp [List.mem_toFinset, mem_uniqueCells, h.mem_iff]

theorem analysisKeys_perm (t t2 : Table) (group : Option String)
    (hh : t2.headers = t.headers) (hr : t2.rows.Perm t.rows) :
    (analysisKeys t2 group).Perm (analysisKeys t group) := by
  cases group with
  | none => exact List.Perm.refl _
  | some g =>
      simp only [analysisKeys]
      exact ((uniqueCells_perm _ _ (col_perm t t2 hh hr g)).map _).cons ALL |>.cons VAR_NAME

/-- Row permutation leaves every entry of the numerical accumulator
unchanged; only the first-seen order of the group values (hence the order
of the group columns) can change. -/
theorem num_results_perm (t t2 : Table) (group : Option String)
    (hh : t2.headers = t.headers) (hr : t2.rows.Perm t.rows)
    (hnd : (analysisKeys t group).Nodup) :
    (num_results t2 group).Perm (num_results t group) := by
  cases group with
  | none =>
      have : num_results t2 none = num_results t none := by
        rw [num_results_char_none, num_results_char_none, hh]
        refine congrArg₂ List.cons rfl (congrArg₂ List.cons ?_ rfl)
        refine congrArg (Prod.mk ALL) ?_
        exact List.map_congr_left (fun col _ => num_all_entry_perm t t2 hh hr col)
      rw [this]
  | some g =>
      have hnd2 : (analysisKeys t2 (some g)).Nodup :=
        ((analysisKeys_perm t t2 (some g) hh hr).nodup_iff).2 hnd
      rw [num_results_char_some t g hnd, num_results_char_some t2 g hnd2]
      have hcols : analysis_cols t2 (some g) = analysis_cols t (some g) := by
        simp [analysis_cols, hh]
      have hALLc : (analysis_cols t (some g)).map (num_all_entry t2) =
          (analysis_cols t (some g)).map (num_all_entry t) :=
        List.map_congr_left (fun col _ => num_all_entry_perm t t2 hh hr col)
      have hgmap : (uniqueCells (t2.col g)).map (fun gv =>
          (group_key g gv, (analysis_cols t (some g)).map
            (fun col => num_group_entry t2 g gv col))) =
          (uniqueCells (t2.col g)).map (fun gv =>
            (group_key g gv, (analysis_cols t (some g)).map
              (fun col => num_group_entry t g gv col))) := by
        refine List.map_congr_left (fun gv _ => ?_)
        refine congrArg (Prod.mk (group_key g gv)) ?_
        exact List.map_congr_left (fun col _ =>
          num_group_entry_perm t t2 hh hr g gv col)
      rw [hcols, hALLc, hgmap]
      exact (((uniqueCells_perm _ _ (col_perm t t2 hh hr g)).map _).cons _).cons _

/-! ## Exact characterisation of the ungrouped categorical analysis -/

theorem catStepCategory_none_eq (t : Table) (col : String)
    (xs ys : List String) (category : Cell) (h : col_total t col ≠ 0) :
    catStepCategory t none [] col [(VAR_NAME, xs), (ALL, ys)] category =
      .ok [(VAR_NAME, xs ++ [cat_label col category]),
           (ALL, ys ++ [cat_all_entry t col category])] := by
  rw [catStepCategory_eq, if_neg h]
  simp [dictAppend, show ¬ (VAR_NAME = ALL) by decide,
    show ¬ (ALL = VAR_NAME) by decide]

theorem cat_fold_categories_none (t : Table) (col : String) :
    ∀ (cats : List Cell) (xs ys : List String),
      (∀ c ∈ cats, col_total t col ≠ 0) →
      cats.foldlM (catStepCategory t none [] col) [(VAR_NAME, xs), (ALL, ys)] =
        .ok [(VAR_NAME, xs ++ cats.map (cat_label col)),
             (ALL, ys ++ cats.map (cat_all_entry t col))] := by
  intro cats
  induction cats with
  | nil => intro xs ys _; simp [List.foldlM_nil]; rfl
  | cons c cats ih =>
      intro xs ys h
      rw [List.foldlM_cons,
        catStepCategory_none_eq t col xs ys c (h c (List.mem_cons_self _ _))]
      have step := ih (xs ++ [cat_label col c]) (ys ++ [cat_all_entry t col c])
        (fun c' hc => h c' (List.mem_cons_of_mem _ hc))
      have hbind : ((Except.ok [(VAR_NAME, xs ++ [cat_label col c]),
          (ALL, ys ++ [cat_all_entry t col c])] : Except String RDict) >>=
          (fun d => cats.foldlM (catStepCategory t none [] col) d)) =
          cats.foldlM (catStepCategory t none [] col)
            [(VAR_NAME, xs ++ [cat_label col c]),
             (ALL, ys ++ [cat_all_entry t col c])] := rfl
      rw [hbind, step]
      simp

theorem cat_fold_cols_none (t : Table) :
    ∀ (cols : List String) (xs ys : List String),
      cols.foldlM (catStepCol t none []) [(VAR_NAME, xs), (ALL, ys)] =
        .ok [(VAR_NAME, xs ++ cols.flatMap (fun col =>
                (cat_categories t col).map (cat_label col))),
             (ALL, ys ++ cols.flatMap (fun col =>
                (cat_categories t col).map (cat_all_entry t col)))] := by
  intro cols
  induction cols with
  | nil => intro xs ys; simp [List.foldlM_nil]; rfl
  | cons col cols ih =>
      intro xs ys
      rw [List.foldlM_cons]
      have hstep : catStepCol t none [] [(VAR_NAME, xs), (ALL, ys)] col =
          .ok [(VAR_NAME, xs ++ (cat_categories t col).map (cat_label col)),
               (ALL, ys ++ (cat_categories t col).map (cat_all_entry t col))] := by
        unfold catStepCol
        exact cat_fold_categories_none t col (cat_categories t col) xs ys
          (fun c hc => col_total_pos t col c hc)
      rw [hstep]
      have hbind : ((Except.ok [(VAR_NAME, xs ++ (cat_categories t col).map (cat_label col)),
          (ALL, ys ++ (cat_categories t col).map (cat_all_entry t col))] :
            Except String RDict) >>=
          (fun d => cols.foldlM (catStepCol t none []) d)) =
          cols.foldlM (catStepCol t none [])
            [(VAR_NAME, xs ++ (cat_categories t col).map (cat_label col)),
             (ALL, ys ++ (cat_categories t col).map (cat_all_entry t col))] := rfl
      rw [hbind, ih]
      simp

/-- The ungrouped categorical analysis always succeeds, with exactly one
row per (column, category) pair, in column order and first-seen category
order. -/
theorem cat_results_none (t : Table) :
    cat_results t none =
      .ok [(VAR_NAME, t.headers.flatMap (fun col =>
              (cat_categories t col).map (cat_label col))),
           (ALL, t.headers.flatMap (fun col =>
              (cat_categories t col).map (cat_all_entry t col)))] := by
  have h := cat_fold_cols_none t t.headers [] []
  simp only [List.nil_append] at h
  exact h

theorem except_bind_ok {α β : Type} (a : α) (f : α → Except String β) :
    ((Except.ok a : Except String α) >>= f) = f a := rfl

/-! ## Comma joins -/

theorem joinComma_foldl_aux (rest : List String) :
    ∀ (a b : String),
      rest.foldl (fun acc y => acc ++ "," ++ y) (a ++ b) =
        a ++ rest.foldl (fun acc y => acc ++ "," ++ y) b := by
  induction rest with
  | nil => intro a b; rfl
  | cons y rest ih =>
      intro a b
      have h1 : a ++ b ++ "," ++ y = a ++ (b ++ "," ++ y) := by
        rw [String.append_assoc a b ",", String.append_assoc a (b ++ ",") y]
      rw [List.foldl_cons, List.foldl_cons, h1]
      exact ih a (b ++ "," ++ y)

theorem joinComma_eq_spec (l : List String) : joinComma l = joinCommaSpec l := by
  induction l with
  | nil => rfl
  | cons s rest ih =>
      cases rest with
      | nil => rfl
      | cons x rest2 =>
          show (x :: rest2).foldl (fun acc y => acc ++ "," ++ y) s =
            s ++ "," ++ joinCommaSpec (x :: rest2)
          rw [List.foldl_cons,
            show s ++ "," ++ x = (s ++ ",") ++ x from rfl,
            joinComma_foldl_aux rest2 (s ++ ",") x]
          have hx : rest2.foldl (fun acc y => acc ++ "," ++ y) x =
              joinCommaSpec (x :: rest2) := ih
          rw [hx, String.append_assoc]

/-! ## The claims -/

/-- C1: without a grouping column, `get_categorical_var_analysis` succeeds
and produces exactly one result row per (column, distinct non-missing
value) pair — columns in table order, categories in first-seen order,
each category counted once — and the "All" entry of each row is
`f"{category_total} ({category_total/total:.2%})"` with
`total = df.shape[0] - df[col].isna().sum()` (see `cat_all_entry`,
`category_total` and `col_total`). -/
theorem claim_C1 (t : Table) :
    get_categorical_var_analysis t none =
      .ok [(VAR_NAME, t.headers.flatMap (fun col =>
              (cat_categories t col).map (cat_label col))),
           (ALL, t.headers.flatMap (fun col =>
              (cat_categories t col).map (cat_all_entry t col)))] ∧
    (∀ col, (cat_categories t col).Nodup) ∧
    (∀ col v, v ∈ cat_categories t col ↔ v ∈ t.col col ∧ v.isNull = false) := by
  refine ⟨?_, fun col => uniqueCells_nodup _, fun col v => ?_⟩
  · unfold get_categorical_var_analysis
    rw [cat_results_none, except_bind_ok]
    have hlen : (t.headers.flatMap (fun col =>
        (cat_categories t col).map (cat_all_entry t col))).length =
        (t.headers.flatMap (fun col =>
          (cat_categories t col).map (cat_label col))).length := by
      rw [List.length_flatMap, List.length_flatMap]
      refine congrArg List.sum (List.map_congr_left (fun col _ => ?_))
      simp
    have halign : dictAligned
        [(VAR_NAME, t.headers.flatMap (fun col =>
            (cat_categories t col).map (cat_label col))),
         (ALL, t.headers.flatMap (fun col =>
            (cat_categories t col).map (cat_all_entry t col)))] = true := by
      simp [dictAligned, hlen]
    rw [if_pos halign]
  · simp [cat_categories, mem_uniqueCells, List.mem_filter, Bool.not_eq_true']

/-- C4: when the grouping column has no missing values, the per-group
counts `sub_category_total` summed over the group values computed by
`_initialize_results_dict` equal the ungrouped count `category_total`
reported in the "All" column. -/
theorem claim_C4 (t : Table) (g col : String) (category : Cell)
    (hg : ∀ c ∈ t.col g, c.isNull = false) :
    (((initialize_results_dict t (some g)).2).map
      (fun gv => sub_category_total t g gv col category)).sum =
      category_total t col category := by
  have hgv : (initialize_results_dict t (some g)).2 = uniqueCells (t.col g) := rfl
  rw [hgv]
  unfold sub_category_total category_total
  apply length_filter_partition t.headers g col category _ (uniqueCells_nodup _)
  intro r hr
  have hmem := rowCell_mem_col t r g hr
  exact ⟨hg _ hmem, (mem_uniqueCells _ _).2 hmem⟩

theorem claim_C4_witness :
    (∀ c ∈ exC5w.col "G", c.isNull = false) ∧
    (((initialize_results_dict exC5w (some "G")).2).map
      (fun gv => sub_category_total exC5w "G" gv "X" (Cell.str "x"))).sum =
      category_total exC5w "X" (Cell.str "x") :=
  ⟨by decide, claim_C4 exC5w "G" "X" (Cell.str "x") (by decide)⟩

/-- C8: `_create_table` issues exactly one CREATE TABLE statement; its
column definitions follow the type map's iteration order, each rendered as
`"name" type`, and a given primary key appends a parenthesized,
comma-separated, double-quoted PRIMARY KEY clause at the end (the
right-hand sides are spelled with the independent `joinCommaSpec`). -/
theorem claim_C8 (schema name : String) (types : List (String × String))
    (ks : List String) (pk : Option (List String))
    (execR : String → PgResult Unit) :
    (create_table schema name types pk execR).1 =
      [create_table_query schema name types pk] ∧
    create_table_query schema name types (some ks) =
      "CREATE TABLE " ++ schema ++ ".\"" ++ name ++ "\" (" ++
        joinCommaSpec (types.map (fun p => "\"" ++ p.1 ++ "\" " ++ p.2)) ++
        ", PRIMARY KEY (" ++
        joinCommaSpec (ks.map (fun c => "\"" ++ c ++ "\"")) ++ ") );" ∧
    create_table_query schema name types none =
      "CREATE TABLE " ++ schema ++ ".\"" ++ name ++ "\" (" ++
        joinCommaSpec (types.map (fun p => "\"" ++ p.1 ++ "\" " ++ p.2)) ++
        ");" := by
  refine ⟨rfl, ?_, ?_⟩
  · simp only [create_table_query, reformat_columns_and_types, reformat_columns,
      joinComma_eq_spec]
  · simp only [create_table_query, reformat_columns_and_types, joinComma_eq_spec]

/-- C10: `_reformat_columns` wraps each name in exactly one pair of double
quotes and joins with commas, performing no escaping of quote characters
inside a name; a name containing a double quote is embedded verbatim into
the SELECT built by `get_table` (note also the query's double space, an
artifact of the source's two f-strings). -/
theorem claim_C10 (cols : List String) (c : String) :
    reformat_columns cols =
      joinCommaSpec (cols.map (fun x => "\"" ++ x ++ "\"")) ∧
    reformat_columns [c] = "\"" ++ c ++ "\"" ∧
    reformat_columns ["a\"b"] = "\"a\"b\"" ∧
    get_table_query "public" "t" (some ["a\"b"]) =
      "SELECT \"a\"b\"  FROM public.\"t\"" ∧
    create_table_query "public" "t" [("x", "text")] (some ["a\"b"]) =
      "CREATE TABLE public.\"t\" (\"x\" text, PRIMARY KEY (\"a\"b\") );" := by
  refine ⟨?_, rfl, by decide, by decide, by decide⟩
  simp only [reformat_columns, joinComma_eq_spec]

/-- C6 counterexample: one and the same exception value (the bare
`Exception` wrapping the backend text) is raised by a failed CREATE TABLE,
a failed SELECT, a failed connect and a failed bulk load — the source has
no per-operation taxonomy (`ConnectionError`/`SchemaError`/`LoadError`/
`QueryError` do not exist in it), refuting the claimed distinct kinds. -/
theorem claim_C6_counterexample :
    ∃ e : PyExc,
      (create_table "public" "t" [("a", "text")] none (fun _ => .err "boom")).2 =
        .error e ∧
      get_table "public" "t" none (fun _ => .err "boom") = .error e ∧
      connect (.err "boom") = .error e ∧
      (create_and_fill_table (.ok ()) (.err "boom")).2 = .error e :=
  ⟨.exception "boom", rfl, rfl, rfl, rfl⟩

/-- C6 amended: every backend-originated failure is caught at the point of
execution and re-raised as the single generic `Exception` carrying the
backend's native `pgerror` text — the same exception type for connect, DDL,
bulk copy, SELECT and catalog queries — and no backend failure is
swallowed (a successful wrapped result implies a successful backend
result). -/
theorem claim_C6_amended (m : String) (schema name tname : String)
    (types : List (String × String)) (pk : Option (List String))
    (cols : Option (List String)) :
    connect (.err m) = .error (.exception m) ∧
    (create_table schema name types pk (fun _ => .err m)).2 =
      .error (.exception m) ∧
    get_table schema name cols (fun _ => .err m) = .error (.exception m) ∧
    get_column_names tname (fun _ => .err m) = .error (.exception m) ∧
    (create_and_fill_table (.err m) (.ok ())).2 = .error (.exception m) ∧
    (create_and_fill_table (.ok ()) (.err m)).2 = .error (.exception m) ∧
    (∀ (α : Type) (r : PgResult α) (a : α), wrap_pg r = .ok a → r = .ok a) := by
  refine ⟨rfl, rfl, rfl, rfl, rfl, rfl, ?_⟩
  intro α r a h
  cases r with
  | ok b =>
      have hb : b = a := by
        have : (Except.ok b : Except PyExc α) = .ok a := h
        injection this
      rw [hb]
  | err m2 => cases h

/-- C7 counterexample: the error surfaced by a bulk-load failure is the
same generic `Exception` surfaced by a table-creation failure — there is
no `LoadError` kind distinguishing the load phase. -/
theorem claim_C7_counterexample :
    (create_and_fill_table (.ok ()) (.err "copy failed")).2 =
      (create_and_fill_table (.err "copy failed") (.ok ())).2 ∧
    (create_and_fill_table (.ok ()) (.err "copy failed")).2 =
      .error (.exception "copy failed") :=
  ⟨rfl, rfl⟩

/-- C7 amended: when table creation succeeds and the bulk load then fails,
the temporary csv is removed before the error propagates, the table stays
created but unfilled (no rollback of phase one), and the propagated error
is the generic `Exception` wrapping the backend's error text (the source
defines no `LoadError`). -/
theorem claim_C7_amended (m : String) :
    create_and_fill_table (.ok ()) (.err m) =
      ({ tableCreated := true, tableFilled := false, tempFileExists := false },
        .error (.exception m)) := rfl

/-- C5 counterexample: a grouping column named `Variable` holding the
value `Name` makes the synthesized group key collide with the
`"Variable Name"` accumulator key; the accumulator ends misaligned and the
final `DataFrame` conversion fails, refuting "the conversion always
succeeds". -/
theorem claim_C5_counterexample :
    get_numerical_var_analysis exC5 (some "Variable") = none := by decide

/-- C5 amended: provided the synthesized keys ("Variable Name", "All" and
one `f"{group} {value}"` key per distinct group value) are pairwise
distinct, the shared accumulator's value lists all have equal length when
the final `DataFrame` conversion runs, so the conversion succeeds — always
for the numerical analysis, and for the categorical analysis whenever the
accumulation itself completes without a division error. -/
theorem claim_C5_amended (t : Table) (group : Option String)
    (hnd : (analysisKeys t group).Nodup) :
    get_numerical_var_analysis t group = some (num_results t group) ∧
    (∀ d, cat_results t group = .ok d →
      get_categorical_var_analysis t group = .ok d) := by
  constructor
  · unfold get_numerical_var_analysis to_dataframe
    rw [if_pos (num_results_aligned t group hnd)]
  · intro d hd
    unfold get_categorical_var_analysis
    rw [hd, except_bind_ok, if_pos (cat_results_aligned t group d hnd hd)]

theorem claim_C5_witness :
    (analysisKeys exC5w (some "G")).Nodup ∧
    (get_numerical_var_analysis exC5w (some "G") =
      some (num_results exC5w (some "G")) ∧
    (∀ d, cat_results exC5w (some "G") = .ok d →
      get_categorical_var_analysis exC5w (some "G") = .ok d)) :=
  ⟨by decide, claim_C5_amended exC5w (some "G") (by decide)⟩

/-- C2 counterexample: `df[group].unique()` keeps NaN, so a missing value
in the grouping column *does* become a group value of its own; on this
table the categorical analysis then divides by the empty NaN-group's zero
total and raises `ZeroDivisionError` — refuting "the set of group values
contains only the distinct non-missing values". -/
theorem claim_C2_counterexample :
    (initialize_results_dict exC2 (some "Sex")).2 = [Cell.str "M", Cell.null] ∧
    Cell.null.isNull = true ∧
    get_categorical_var_analysis exC2 (some "Sex") =
      .error "ZeroDivisionError" := by
  refine ⟨by decide, rfl, ?_⟩
  decide

/-- C2 amended: the group values are the distinct values of the grouping
column *including* a missing marker; a missing grouping value forms a
summary key `f"{group} nan"` of its own, and since the missing marker
matches no row under pandas `==`, the numerical analysis fills that key
with `"nan (nan) [nan, nan]"` for every analysed column. -/
theorem claim_C2_amended (t : Table) (g : String)
    (hnd : (analysisKeys t (some g)).Nodup)
    (hnull : Cell.null ∈ t.col g) :
    (initialize_results_dict t (some g)).2 = uniqueCells (t.col g) ∧
    (group_key g Cell.null, (analysis_cols t (some g)).map
      (fun _ => "nan (nan) [nan, nan]")) ∈ num_results t (some g) := by
  refine ⟨rfl, ?_⟩
  rw [num_results_char_some t g hnd]
  have hmem : Cell.null ∈ uniqueCells (t.col g) := (mem_uniqueCells _ _).2 hnull
  have hentry : ∀ col, num_group_entry t g Cell.null col = "nan (nan) [nan, nan]" := by
    intro col
    have hrows : t.rows.filter
        (fun r => Cell.beq (rowCell t.headers r g) Cell.null) = [] :=
      List.filter_eq_nil_iff.2 (fun r _ => by simp [Cell.beq_null_right])
    have hempty : (t.filterRows (fun r =>
        Cell.beq (rowCell t.headers r g) Cell.null)).col col = [] := by
      simp [Table.filterRows, Table.col, hrows]
    rw [num_group_entry, hempty]
    rfl
  refine List.mem_cons_of_mem _ (List.mem_cons_of_mem _ ?_)
  have hrw : (group_key g Cell.null, (analysis_cols t (some g)).map
      (fun _ => "nan (nan) [nan, nan]")) =
      (group_key g Cell.null, (analysis_cols t (some g)).map
        (fun col => num_group_entry t g Cell.null col)) :=
    congrArg _ (List.map_congr_left (fun col _ => (hentry col).symm))
  rw [hrw]
  exact List.mem_map_of_mem _ hmem

theorem claim_C2_witness :
    (analysisKeys exC2w (some "G")).Nodup ∧
    Cell.null ∈ exC2w.col "G" ∧
    ((initialize_results_dict exC2w (some "G")).2 =
        uniqueCells (exC2w.col "G") ∧
      (group_key "G" Cell.null, (analysis_cols exC2w (some "G")).map
        (fun _ => "nan (nan) [nan, nan]")) ∈ num_results exC2w (some "G")) :=
  ⟨by decide, by decide, claim_C2_amended exC2w "G" (by decide) (by decide)⟩

/-- C3 counterexample: on the spec's own example table the "Sex F" group
holds the single observation `20`, whose *sample* standard deviation
(`ddof=1`, pandas `Series.std`) is NaN, not `0.00`; the claimed row value
`"20.00 (0.00) [20.00, 20.00]"` does not occur in the result. -/
theorem claim_C3_counterexample :
    ("Sex F", ["20.00 (0.00) [20.00, 20.00]"]) ∉ num_results exT3 (some "Sex") := by
  with_unfolding_all decide

/-- C3 amended: on the table with `Age = [10, 20, 30]` and `Sex = [M, F, M]`,
the numerical analysis returns the Age row with "All" entry
`"20.00 (10.00) [10.00, 30.00]"`, "Sex M" entry
`"20.00 (14.14) [10.00, 30.00]"`, and "Sex F" entry
`"20.00 (nan) [20.00, 20.00]"` — the sample standard deviation of the
single F observation is NaN, rendered `"nan"`. -/
theorem claim_C3_amended :
    get_numerical_var_analysis exT3 (some "Sex") =
      some [("Variable Name", ["Age"]),
            ("All", ["20.00 (10.00) [10.00, 30.00]"]),
            ("Sex M", ["20.00 (14.14) [10.00, 30.00]"]),
            ("Sex F", ["20.00 (nan) [20.00, 20.00]"])] := by
  with_unfolding_all decide

/-- C9 counterexample: swapping the two rows of a grouped table reorders
the first-seen group values, so the returned summary table has its
"Sex M"/"Sex F" columns in a different order — the results are not equal
as tables. -/
theorem claim_C9_counterexample :
    exT9b.headers = exT9a.headers ∧ exT9b.rows.Perm exT9a.rows ∧
    get_numerical_var_analysis exT9b (some "Sex") ≠
      get_numerical_var_analysis exT9a (some "Sex") := by
  refine ⟨rfl, by decide, ?_⟩
  with_unfolding_all decide

/-- C9 amended: for tables of numeric columns with pairwise distinct
summary keys, row permutation leaves every entry of the numerical summary
unchanged (mean, sample std, min and max are permutation invariant); the
resulting accumulators agree up to the order of the group columns (and
exactly when no grouping is given). -/
theorem claim_C9_amended (t t2 : Table) (group : Option String)
    (hh : t2.headers = t.headers) (hr : t2.rows.Perm t.rows)
    (_hnum : ∀ col ∈ analysis_cols t group, ∀ c ∈ t.col col,
      c.numericOrMissing = true)
    (hnd : (analysisKeys t group).Nodup) :
    (num_results t2 group).Perm (num_results t group) :=
  num_results_perm t t2 group hh hr hnd

theorem claim_C9_witness :
    exT9b.headers = exT9a.headers ∧ exT9b.rows.Perm exT9a.rows ∧
    (∀ col ∈ analysis_cols exT9a (some "Sex"), ∀ c ∈ exT9a.col col,
      c.numericOrMissing = true) ∧
    (analysisKeys exT9a (some "Sex")).Nodup ∧
    (num_results exT9b (some "Sex")).Perm (num_results exT9a (some "Sex")) :=
  ⟨rfl, by decide, by decide, by decide,
    claim_C9_amended exT9a exT9b (some "Sex") rfl (by decide) (by decide) (by decide)⟩

theorem claim_C1_witness :
    get_categorical_var_analysis exSex none =
      .ok [("Variable Name", ["Sex : M", "Sex : F"]),
           ("All", ["3 (60.00%)", "2 (40.00%)"])] := by
  have h := (claim_C1 exSex).1
  rw [h]
  with_unfolding_all decide

theorem claim_C6_witness :
    connect (.err "x") = .error (.exception "x") ∧
    get_column_names "t" (fun _ => .err "x") = .error (.exception "x") :=
  ⟨(claim_C6_amended "x" "s" "n" "t" [] none none).1,
    (claim_C6_amended "x" "s" "n" "t" [] none none).2.2.2.1⟩

theorem claim_C7_witness :
    create_and_fill_table (.ok ()) (.err "disk full") =
      ({ tableCreated := true, tableFilled := false, tempFileExists := false },
        .error (.exception "disk full")) :=
  claim_C7_amended "disk full"

theorem claim_C8_witness :
    create_table_query "public" "t" [("a", "integer"), ("B c", "text")]
        (some ["a", "B c"]) =
      "CREATE TABLE public.\"t\" (\"a\" integer,\"B c\" text, PRIMARY KEY (\"a\",\"B c\") );" := by
  have h := (claim_C8 "public" "t" [("a", "integer"), ("B c", "text")]
    ["a", "B c"] none (fun _ => .ok ())).2.1
  rw [h]
  decide

theorem claim_C10_witness :
    reformat_columns ["name", "age", "gender"] = "\"name\",\"age\",\"gender\"" := by
  have h := (claim_C10 ["name", "age", "gender"] "x").1
  rw [h]
  decide

end PySQL
